import Mathlib

/-!
Verification of the header-management core of `credit.py` (a copyright-header
reconciler).  The Python source is embedded shallowly: file contents are
`List Char`, the Python `re` patterns used by the source are embedded as a
small backtracking matcher (`RE` / `mtch`) with Python's leftmost /
first-alternative / greedy-lazy semantics for exactly the constructs those
patterns use, and the per-file reconciler `add_or_update_copyright` is a pure
function from a file model (decoded content plus read/write failure modes) to
an outcome, where an uncaught Python exception is modelled as `Except.error`.
-/

namespace Credit

/-- Python whitespace for `str.isspace`, `str.lstrip` and the regex class `\s`
(ASCII range): space, tab, newline, carriage return, vertical tab, form feed. -/
def isPySpace (c : Char) : Bool :=
  c = ' ' || c = '\t' || c = '\n' || c = '\r' || c = '\x0b' || c = '\x0c'

/-- Regex class `\w` (ASCII range): letters, digits and underscore. -/
def isWordCh (c : Char) : Bool :=
  c.isAlpha || c.isDigit || c = '_'

/-- Class matching any character: `.` under `re.DOTALL`. -/
def anyCh (_ : Char) : Bool := true

/-- Class for `.` without `re.DOTALL`: any character except newline. -/
def dotCh (c : Char) : Bool := c ≠ '\n'

/-- Fuelled helper for `npre`; the fuel only bounds the recursion depth, so
the definition is structural and reduces in the kernel. -/
def npreAux (p : Char → Bool) (s : List Char) : Nat → Nat → Nat
  | 0, _ => 0
  | fuel + 1, i =>
    if h : i < s.length then
      (if p (s.get ⟨i, h⟩) then npreAux p s fuel (i + 1) + 1 else 0)
    else 0

/-- Length of the maximal run of characters satisfying `p` starting at
position `i` of `s`: the amount a greedy `p*` consumes before backtracking. -/
def npre (p : Char → Bool) (s : List Char) (i : Nat) : Nat :=
  npreAux p s (s.length - i) i

theorem npreAux_le (p : Char → Bool) (s : List Char) :
    ∀ fuel i, npreAux p s fuel i ≤ s.length - i := by
  intro fuel
  induction fuel with
  | zero => intro i; simp [npreAux]
  | succ fuel ih =>
    intro i
    rw [npreAux]
    split
    · split
      · have hrec := ih (i + 1)
        omega
      · omega
    · omega

theorem npre_le (p : Char → Bool) (s : List Char) (i : Nat) :
    npre p s i ≤ s.length - i :=
  npreAux_le p s (s.length - i) i

theorem npreAux_prop (p : Char → Bool) (s : List Char) :
    ∀ fuel i t, t < npreAux p s fuel i → ∃ h : i + t < s.length, p (s.get ⟨i + t, h⟩) := by
  intro fuel
  induction fuel with
  | zero => intro i t ht; simp [npreAux] at ht
  | succ fuel ih =>
    intro i t ht
    rw [npreAux] at ht
    split at ht
    · rename_i hi
      split at ht
      · rename_i hp
        cases t with
        | zero => exact ⟨by simpa using hi, by simpa using hp⟩
        | succ t =>
          obtain ⟨h1, h2⟩ := ih (i + 1) t (by omega)
          refine ⟨by omega, ?_⟩
          have heq : i + 1 + t = i + (t + 1) := by omega
          simp only [← heq]
          exact h2
      · omega
    · omega

theorem npre_prop (p : Char → Bool) (s : List Char) (i : Nat) :
    ∀ t, t < npre p s i → ∃ h : i + t < s.length, p (s.get ⟨i + t, h⟩) :=
  npreAux_prop p s (s.length - i) i

theorem npreAux_ge (p : Char → Bool) (s : List Char) :
    ∀ fuel i n, i + n ≤ s.length → n ≤ fuel →
      (∀ t, t < n → ∃ h : i + t < s.length, p (s.get ⟨i + t, h⟩)) →
      n ≤ npreAux p s fuel i := by
  intro fuel
  induction fuel with
  | zero => intro i n hb hf hall; omega
  | succ fuel ih =>
    intro i n hb hf hall
    cases n with
    | zero => omega
    | succ n =>
      have h0 : i < s.length := by
        obtain ⟨h, _⟩ := hall 0 (by omega)
        omega
      have hp0 : p (s.get ⟨i, h0⟩) := by
        obtain ⟨h, hp⟩ := hall 0 (by omega)
        simpa using hp
      rw [npreAux, dif_pos h0, if_pos hp0]
      have hrec : n ≤ npreAux p s fuel (i + 1) := by
        apply ih (i + 1) n (by omega) (by omega)
        intro t ht
        obtain ⟨h, hp⟩ := hall (t + 1) (by omega)
        refine ⟨by omega, ?_⟩
        have heq : i + 1 + t = i + (t + 1) := by omega
        simp only [heq]
        exact hp
      omega

theorem npre_ge (p : Char → Bool) (s : List Char) (i : Nat) (n : Nat)
    (hb : i + n ≤ s.length)
    (hall : ∀ t, t < n → ∃ h : i + t < s.length, p (s.get ⟨i + t, h⟩)) :
    n ≤ npre p s i :=
  npreAux_ge p s (s.length - i) i n hb (by omega) hall

/-- Backtracking attempt for a greedy repetition: try the continuation at
`i + n`, then `i + n - 1`, ..., down to `i`. -/
def tryDown (k : Nat → Option Nat) (i : Nat) : Nat → Option Nat
  | 0 => k i
  | n + 1 => (k (i + n + 1)).orElse (fun _ => tryDown k i n)

/-- Backtracking attempt for a lazy repetition: try the continuation at
`i`, then `i + 1`, ..., up to `i + n`. -/
def tryFrom (k : Nat → Option Nat) (i : Nat) : Nat → Option Nat
  | 0 => k i
  | n + 1 => (k i).orElse (fun _ => tryFrom k (i + 1) n)

theorem tryDown_eq_some (k : Nat → Option Nat) (i v : Nat) :
    ∀ n, tryDown k i n = some v → ∃ t, t ≤ n ∧ k (i + t) = some v := by
  intro n
  induction n with
  | zero => intro h; exact ⟨0, Nat.le_refl 0, h⟩
  | succ n ih =>
    intro h
    rw [tryDown] at h
    cases hx : k (i + n + 1) with
    | some w =>
      rw [hx] at h
      simp only [Option.orElse, Option.some.injEq] at h
      refine ⟨n + 1, Nat.le_refl _, ?_⟩
      have heq : i + (n + 1) = i + n + 1 := by omega
      rw [heq, hx]
      exact congrArg some h
    | none =>
      rw [hx] at h
      simp only [Option.orElse, Option.none_orElse] at h
      obtain ⟨t, ht, hk⟩ := ih h
      exact ⟨t, by omega, hk⟩

theorem tryDown_some_of (k : Nat → Option Nat) (i t v : Nat)
    (hk : k (i + t) = some v) : ∀ n, t ≤ n → (tryDown k i n).isSome := by
  intro n
  induction n with
  | zero =>
    intro h
    have ht0 : t = 0 := by omega
    subst ht0
    rw [Nat.add_zero] at hk
    simp [tryDown, hk]
  | succ n ih =>
    intro h
    rw [tryDown]
    cases hx : k (i + n + 1) with
    | some w => simp [Option.orElse]
    | none =>
      have ht : t ≤ n := by
        by_contra hc
        have heq : t = n + 1 := by omega
        subst heq
        have heq2 : i + (n + 1) = i + n + 1 := by omega
        rw [heq2, hx] at hk
        cases hk
      simpa [Option.orElse] using ih ht

theorem tryFrom_eq_some (k : Nat → Option Nat) (v : Nat) :
    ∀ n i, tryFrom k i n = some v → ∃ t, t ≤ n ∧ k (i + t) = some v := by
  intro n
  induction n with
  | zero => intro i h; exact ⟨0, Nat.le_refl 0, h⟩
  | succ n ih =>
    intro i h
    rw [tryFrom] at h
    cases hx : k i with
    | some w =>
      rw [hx] at h
      simp only [Option.orElse, Option.some.injEq] at h
      refine ⟨0, by omega, ?_⟩
      rw [Nat.add_zero, hx]
      exact congrArg some h
    | none =>
      rw [hx] at h
      simp only [Option.orElse, Option.none_orElse] at h
      obtain ⟨t, ht, hk⟩ := ih (i + 1) h
      refine ⟨t + 1, by omega, ?_⟩
      have heq : i + (t + 1) = i + 1 + t := by omega
      rw [heq]
      exact hk

theorem tryFrom_some_of (k : Nat → Option Nat) (v : Nat) :
    ∀ n i t, t ≤ n → k (i + t) = some v → (tryFrom k i n).isSome := by
  intro n
  induction n with
  | zero =>
    intro i t h hk
    have ht0 : t = 0 := by omega
    subst ht0
    rw [Nat.add_zero] at hk
    simp [tryFrom, hk]
  | succ n ih =>
    intro i t h hk
    rw [tryFrom]
    cases hx : k i with
    | some w => simp [Option.orElse]
    | none =>
      have ht : 1 ≤ t := by
        by_contra hc
        have ht0 : t = 0 := by omega
        subst ht0
        rw [Nat.add_zero] at hk
        rw [hk] at hx
        cases hx
      have hk2 : k (i + 1 + (t - 1)) = some v := by
        have heq : i + 1 + (t - 1) = i + t := by omega
        rw [heq]
        exact hk
      simpa [Option.orElse] using ih (i + 1) (t - 1) (by omega) hk2

/-- Bridge from the boolean prefix test to the prefix relation. -/
theorem isPrefixOf_to_IsPrefix {l1 l2 : List Char} (h : l1.isPrefixOf l2) : l1 <+: l2 :=
  List.isPrefixOf_iff_prefix.mp h

/-- Abstract syntax for the fragment of Python `re` used by `credit.py`:
literals, single-character classes, greedy and lazy repetition over a
character class, an optional literal (for `;?`), sequencing, ordered
alternation, the MULTILINE anchors `^` and `$`, and the non-MULTILINE `$`
(`eosPy`, matching at end of input or just before a final newline). -/
inductive RE where
  | lit : List Char → RE
  | cls : (Char → Bool) → RE
  | starG : (Char → Bool) → RE
  | starL : (Char → Bool) → RE
  | plusG : (Char → Bool) → RE
  | optA : List Char → RE
  | seq : RE → RE → RE
  | alt : RE → RE → RE
  | bol : RE
  | eol : RE
  | eosPy : RE

/-- Backtracking matcher in continuation-passing style.  `mtch re s i k`
attempts to match `re` at position `i` of `s`; each way of matching is tried
in Python's preference order (literal order for `alt`, longest-first for
greedy repetition, shortest-first for lazy repetition) and for each the
continuation `k` is invoked with the end position; the first `some` produced
wins, exactly like a backtracking regex engine. -/
def mtch : RE → List Char → Nat → (Nat → Option Nat) → Option Nat
  | .lit l, s, i, k => if l.isPrefixOf (s.drop i) then k (i + l.length) else none
  | .cls p, s, i, k =>
    if h : i < s.length then (if p (s.get ⟨i, h⟩) then k (i + 1) else none) else none
  | .starG p, s, i, k => tryDown k i (npre p s i)
  | .starL p, s, i, k => tryFrom k i (npre p s i)
  | .plusG p, s, i, k =>
    match npre p s i with
    | 0 => none
    | m + 1 => tryDown k (i + 1) m
  | .optA l, s, i, k =>
    if l.isPrefixOf (s.drop i) then (k (i + l.length)).orElse (fun _ => k i) else k i
  | .seq a b, s, i, k => mtch a s i (fun j => mtch b s j k)
  | .alt a b, s, i, k => (mtch a s i k).orElse (fun _ => mtch b s i k)
  | .bol, s, i, k =>
    if i = 0 then k i
    else if h : i - 1 < s.length then (if (s.get ⟨i - 1, h⟩) = '\n' then k i else none)
    else none
  | .eol, s, i, k =>
    if i = s.length then k i
    else if h : i < s.length then (if (s.get ⟨i, h⟩) = '\n' then k i else none)
    else none
  | .eosPy, s, i, k =>
    if i = s.length then k i
    else if h : i < s.length then
      (if i + 1 = s.length then (if (s.get ⟨i, h⟩) = '\n' then k i else none) else none)
    else none

/-- Sequence of several regexes, right-nested. -/
def seqs : List RE → RE
  | [] => .lit []
  | [r] => r
  | r :: rest => .seq r (seqs rest)

/-- End position of a match of `re` at position `i`, if any
(`re.match`-at-a-position semantics). -/
def matchEnd (re : RE) (s : List Char) (i : Nat) : Option Nat :=
  mtch re s i some

/-- Scan for the leftmost match at or after position `i` (fuelled loop;
`re.search` tries successive start positions and stops at the first that
matches).  Returns the (start, end) span. -/
def searchFrom (re : RE) (s : List Char) : Nat → Nat → Option (Nat × Nat)
  | 0, _ => none
  | fuel + 1, i =>
    match matchEnd re s i with
    | some e => some (i, e)
    | none => if i < s.length then searchFrom re s fuel (i + 1) else none

/-- Python `re.search`: leftmost match in the whole string. -/
def reSearch (re : RE) (s : List Char) : Option (Nat × Nat) :=
  searchFrom re s (s.length + 1) 0

/-- Python `re.finditer`: non-overlapping matches scanning left to right,
resuming after the end of each match (advancing by one on an empty match). -/
def findIterFrom (re : RE) (s : List Char) : Nat → Nat → List (Nat × Nat)
  | 0, _ => []
  | fuel + 1, i =>
    match searchFrom re s (s.length + 1) i with
    | some (a, e) => (a, e) :: findIterFrom re s fuel (if a < e then e else a + 1)
    | none => []

/-- All matches of `re` in `s`, as (start, end) spans. -/
def findIter (re : RE) (s : List Char) : List (Nat × Nat) :=
  findIterFrom re s (s.length + 1) 0

/-- Check for exactly four decimal digits at position `j`: the group
`(\d{4})` of the header-detection patterns. -/
def digits4At (s : List Char) (j : Nat) : Bool :=
  match (s.drop j).take 4 with
  | [a, b, c, d] => a.isDigit && b.isDigit && c.isDigit && d.isDigit
  | _ => false

/-- Match, at position `i`, the split pattern `pre · (\d{4}) · post` and
report (year-group start, match end).  The pair is funnelled through the
`Nat`-valued continuation as `j * (s.length + 1) + e`, which is injective
because every match end satisfies `e ≤ s.length`. -/
def grpAt (pre post : RE) (s : List Char) (i : Nat) : Option (Nat × Nat) :=
  (mtch pre s i (fun j =>
    if digits4At s j then
      (mtch post s (j + 4) some).map (fun e => j * (s.length + 1) + e)
    else none)).map
    (fun v => (v / (s.length + 1), v % (s.length + 1)))

/-- Leftmost match of a split pattern: (start, year-group start, end). -/
def grpSearchFrom (pre post : RE) (s : List Char) : Nat → Nat → Option (Nat × Nat × Nat)
  | 0, _ => none
  | fuel + 1, i =>
    match grpAt pre post s i with
    | some (j, e) => some (i, j, e)
    | none => if i < s.length then grpSearchFrom pre post s fuel (i + 1) else none

/-- The `re.search` used by header detection, with the year group exposed. -/
def grpSearch (pre post : RE) (s : List Char) : Option (Nat × Nat × Nat) :=
  grpSearchFrom pre post s (s.length + 1) 0

/-- Per-language comment delimiters (`COMMENT_STYLES` values). -/
structure CommentStyle where
  block_start : String
  block_end : String
  line : String
deriving DecidableEq

/-- The `COMMENT_STYLES` table of `credit.py`, in source order. -/
def COMMENT_STYLES : List (String × CommentStyle) :=
  [("javascript", ⟨"/*", "*/", "//"⟩),
   ("typescript", ⟨"/*", "*/", "//"⟩),
   ("golang", ⟨"/*", "*/", "//"⟩),
   ("python", ⟨"\"\"\"", "\"\"\"", "#"⟩),
   ("c", ⟨"/*", "*/", "//"⟩),
   ("cpp", ⟨"/*", "*/", "//"⟩),
   ("java", ⟨"/*", "*/", "//"⟩),
   ("csharp", ⟨"/*", "*/", "//"⟩),
   ("ruby", ⟨"=begin", "=end", "#"⟩),
   ("php", ⟨"/*", "*/", "//"⟩)]

/-- The `SUPPORTED_EXTENSIONS` table of `credit.py`, in source order. -/
def SUPPORTED_EXTENSIONS : List (String × List String) :=
  [("javascript", [".js", ".jsx"]),
   ("typescript", [".ts", ".tsx"]),
   ("golang", [".go"]),
   ("python", [".py"]),
   ("c", [".c", ".h"]),
   ("cpp", [".cpp", ".hpp", ".cc", ".hh"]),
   ("java", [".java"]),
   ("csharp", [".cs"]),
   ("ruby", [".rb"]),
   ("php", [".php"])]

/-- Style lookup `COMMENT_STYLES.get(language, COMMENT_STYLES["javascript"])`. -/
def styleFor (language : String) : CommentStyle :=
  (List.lookup language COMMENT_STYLES).getD ⟨"/*", "*/", "//"⟩

/-- `get_language_from_extension`: first language whose extension list
contains the extension, defaulting to JavaScript. -/
def get_language_from_extension (extension : String) : String :=
  match SUPPORTED_EXTENSIONS.find? (fun p => p.2.contains extension) with
  | some p => p.1
  | none => "javascript"

/-- The regex `IGNORE_PATTERN = (?://|#|/\*)\s*credit-ignore`. -/
def IGNORE_PATTERN : RE :=
  seqs [.alt (.lit (("//").toList)) (.alt (.lit (("#").toList)) (.lit (("/*").toList))),
        .starG isPySpace,
        .lit (("credit-ignore").toList)]

/-- `should_ignore_file`: `bool(re.search(IGNORE_PATTERN, content))`. -/
def should_ignore_file (content : List Char) : Bool :=
  (reSearch IGNORE_PATTERN content).isSome

/-- `get_copyright_template`: the format-string template for a language.  The
source special-cases `"python"`, but both branches build the identical
f-string around the language's block delimiters. -/
def get_copyright_template (language : String) : List Char :=
  let style := styleFor language
  if language = "python" then
    style.block_start.toList
      ++ (("\nCopyright © {year} {name} ({github})\n\nNot to be shared, replicated, or used without prior consent.\nContact me for any enquiries\n").toList)
      ++ style.block_end.toList
  else
    style.block_start.toList
      ++ (("\nCopyright © {year} {name} ({github})\n\nNot to be shared, replicated, or used without prior consent.\nContact me for any enquiries\n").toList)
      ++ style.block_end.toList

/-- Python `str.format` restricted to the three fields of the copyright
template: a single left-to-right pass replacing `\x7byear\x7d`,
`\x7bname\x7d` and `\x7bgithub\x7d` (substituted values are not re-scanned,
matching `format`). -/
def pyFormatAux (year name github : List Char) : Nat → List Char → List Char
  | 0, tmpl => tmpl
  | fuel + 1, tmpl =>
    if (("\x7byear\x7d").toList).isPrefixOf tmpl then
      year ++ pyFormatAux year name github fuel (tmpl.drop 6)
    else if (("\x7bname\x7d").toList).isPrefixOf tmpl then
      name ++ pyFormatAux year name github fuel (tmpl.drop 6)
    else if (("\x7bgithub\x7d").toList).isPrefixOf tmpl then
      github ++ pyFormatAux year name github fuel (tmpl.drop 8)
    else
      match tmpl with
      | [] => []
      | c :: t => c :: pyFormatAux year name github fuel t

/-- Entry point for the template formatter; the fuel `tmpl.length` bounds the
recursion depth (every step strictly shortens the template). -/
def pyFormat (tmpl year name github : List Char) : List Char :=
  pyFormatAux year name github tmpl.length tmpl

/-- The rendered copyright notice:
`get_copyright_template(language).format(year=CURRENT_YEAR, name=username, github=github)`. -/
def renderNotice (language : String) (year : Nat) (name github : List Char) : List Char :=
  pyFormat (get_copyright_template language) ((Nat.repr year).toList) name github

/-- One of the four header-recognition patterns of `check_existing_copyright`,
split at its `(\d{4})` capture group. -/
structure HeadPattern where
  pre : RE
  post : RE

/-- The four patterns of `check_existing_copyright`, in source order:
block style with `©`, block style with `(c)`, line style with `©`, line
style with `(c)`.  All are searched with `re.DOTALL`, so `.` matches any
character; `USERNAME` is interpolated literally. -/
def headPatterns (style : CommentStyle) (username : List Char) : List HeadPattern :=
  [⟨seqs [.lit style.block_start.toList, .starG isPySpace, .lit (("Copyright © ").toList)],
    seqs [.starL anyCh, .lit username, .starL anyCh, .lit style.block_end.toList]⟩,
   ⟨seqs [.lit style.block_start.toList, .starG isPySpace, .lit (("Copyright (c) ").toList)],
    seqs [.starL anyCh, .lit username, .starL anyCh, .lit style.block_end.toList]⟩,
   ⟨.lit (style.line.toList ++ ((" Copyright © ").toList)),
    seqs [.starL anyCh, .lit username]⟩,
   ⟨.lit (style.line.toList ++ ((" Copyright (c) ").toList)),
    seqs [.starL anyCh, .lit username]⟩]

/-- First pattern in the list with a match, mirroring the
`for pattern in patterns: ... return` loop. -/
def firstHeadMatch (content : List Char) : List HeadPattern → Option (Nat × Nat × Nat)
  | [] => none
  | p :: rest =>
    match grpSearch p.pre p.post content with
    | some r => some r
    | none => firstHeadMatch content rest

/-- `check_existing_copyright`: `some (year, matched span)` for the first
pattern that matches — `match.group(1)` is the four digits at the group
start, `match.group(0)` the full span — and `none` when no pattern matches. -/
def check_existing_copyright (content : List Char) (language : String)
    (username : List Char) : Option (List Char × List Char) :=
  match firstHeadMatch content (headPatterns (styleFor language) username) with
  | some (i, j, e) => some ((content.drop j).take 4, (content.drop i).take (e - i))
  | none => none

/-- Character class `[\w\s{},*]` of the JS/TS import patterns. -/
def jsImpCls (c : Char) : Bool :=
  isWordCh c || isPySpace c || c = '\x7b' || c = '\x7d' || c = ',' || c = '*'

/-- Character class `[\w\s{}]` of the `require` pattern. -/
def jsReqCls (c : Char) : Bool :=
  isWordCh c || isPySpace c || c = '\x7b' || c = '\x7d'

/-- Character class `['"]`. -/
def quoteCh (c : Char) : Bool := c = '\'' || c = '"'

/-- JS/TS import pattern 1: `import\s+[\w\s{},*]+\s+from\s+['"].*?['"];?`
(DOTALL). -/
def jsImport1 : RE :=
  seqs [.lit (("import").toList), .plusG isPySpace, .plusG jsImpCls, .plusG isPySpace,
        .lit (("from").toList), .plusG isPySpace, .cls quoteCh, .starL anyCh,
        .cls quoteCh, .optA ((";").toList)]

/-- JS/TS import pattern 2: `import\s*\(['"].*?['"]\)`. -/
def jsImport2 : RE :=
  seqs [.lit (("import").toList), .starG isPySpace, .lit (("(").toList), .cls quoteCh,
        .starL anyCh, .cls quoteCh, .lit ((")").toList)]

/-- JS/TS import pattern 3:
`(?:const|let|var)\s+[\w\s{}]+\s*=\s*require\s*\(['"].*?['"]\);?`. -/
def jsImport3 : RE :=
  seqs [.alt (.lit (("const").toList)) (.alt (.lit (("let").toList)) (.lit (("var").toList))),
        .plusG isPySpace, .plusG jsReqCls, .starG isPySpace, .lit (("=").toList),
        .starG isPySpace, .lit (("require").toList), .starG isPySpace, .lit (("(").toList),
        .cls quoteCh, .starL anyCh, .cls quoteCh, .lit ((")").toList), .optA ((";").toList)]

/-- JS/TS import pattern 4: `import\s+type\s+[\w\s{},*]+\s+from\s+['"].*?['"];?`. -/
def jsImport4 : RE :=
  seqs [.lit (("import").toList), .plusG isPySpace, .lit (("type").toList), .plusG isPySpace,
        .plusG jsImpCls, .plusG isPySpace, .lit (("from").toList), .plusG isPySpace,
        .cls quoteCh, .starL anyCh, .cls quoteCh, .optA ((";").toList)]

/-- `'|'.join(f'({p})' for p in import_patterns)`: ordered alternation of the
four import patterns. -/
def jsCombined : RE :=
  .alt jsImport1 (.alt jsImport2 (.alt jsImport3 jsImport4))

/-- The four comment/string patterns used to discard import matches, in
source order: `/\*.*?\*/`, `//.*?(?:\n|$)`, `".*?"`, `'.*?'` — all searched
with `re.DOTALL` (so `$` is the non-MULTILINE end anchor). -/
def jsProtectPatterns : List RE :=
  [seqs [.lit (("/*").toList), .starL anyCh, .lit (("*/").toList)],
   seqs [.lit (("//").toList), .starL anyCh, .alt (.lit (("\n").toList)) .eosPy],
   seqs [.lit (("\"").toList), .starL anyCh, .lit (("\"").toList)],
   seqs [.lit (("'").toList), .starL anyCh, .lit (("'").toList)]]

/-- Containment test of the source: the import span `(a, e)` lies fully
inside some match of some comment/string pattern. -/
def jsInsideProtected (content : List Char) (m : Nat × Nat) : Bool :=
  jsProtectPatterns.any (fun p =>
    (findIter p content).any (fun cm => cm.1 ≤ m.1 && m.2 ≤ cm.2))

/-- Largest end offset among matches: `sort(key=lambda x: x[1])` followed by
taking the last element's end. -/
def lastEnd (ms : List (Nat × Nat)) : Nat :=
  ms.foldl (fun a m => max a m.2) 0

/-- Python import pattern `^import\s+.*?$` (MULTILINE, no DOTALL). -/
def pyImport1 : RE :=
  seqs [.bol, .lit (("import").toList), .plusG isPySpace, .starL dotCh, .eol]

/-- Python import pattern `^from\s+.*?\s+import\s+.*?$`. -/
def pyImport2 : RE :=
  seqs [.bol, .lit (("from").toList), .plusG isPySpace, .starL dotCh, .plusG isPySpace,
        .lit (("import").toList), .plusG isPySpace, .starL dotCh, .eol]

/-- `'|'.join(import_patterns)` for the python branch. -/
def pyCombined : RE := .alt pyImport1 pyImport2

/-- Fallback pattern `^import.*?$|^.*?from.*?import.*?$` (MULTILINE). -/
def fallbackImports : RE :=
  .alt (seqs [.bol, .lit (("import").toList), .starL dotCh, .eol])
       (seqs [.bol, .starL dotCh, .lit (("from").toList), .starL dotCh,
              .lit (("import").toList), .starL dotCh, .eol])

/-- The whitespace scan of the python branch: starting at the end of the last
import, advance while on whitespace, incrementing a newline counter at each
newline and stopping (returning the current index) as soon as the counter
exceeds one, or upon reaching non-whitespace or the end of content.  The
counter is never reset, so any second newline in the run stops the scan. -/
def pyScanAux (s : List Char) : Nat → Nat → Nat → Nat
  | 0, i, _ => i
  | fuel + 1, i, cnt =>
    if h : i < s.length then
      if isPySpace (s.get ⟨i, h⟩) then
        if (s.get ⟨i, h⟩) = '\n' then
          (if cnt + 1 > 1 then i else pyScanAux s fuel (i + 1) (cnt + 1))
        else pyScanAux s fuel (i + 1) cnt
      else i
    else i

/-- Entry point for the scan; the fuel `s.length - i` bounds the recursion
depth (the index strictly increases and the loop stops at `s.length`). -/
def pyScan (s : List Char) (i cnt : Nat) : Nat :=
  pyScanAux s (s.length - i) i cnt

/-- `detect_import_blocks`: insertion offset after the trailing import block,
per language family. -/
def detect_import_blocks (content : List Char) (language : String) : Nat :=
  if language = "javascript" ∨ language = "typescript" then
    let all_imports := findIter jsCombined content
    if all_imports.isEmpty then 0
    else
      let imports_to_check := all_imports.filter (fun m => ! jsInsideProtected content m)
      if imports_to_check.isEmpty then 0
      else
        let last_import_end := lastEnd imports_to_check
        match (content.drop last_import_end).findIdx? (fun c => ! isPySpace c) with
        | some t => last_import_end + t
        | none => last_import_end
  else if language = "python" then
    let all_imports := findIter pyCombined content
    if all_imports.isEmpty then 0
    else pyScan content (lastEnd all_imports) 0
  else
    let ms := findIter fallbackImports content
    if ms.isEmpty then 0 else lastEnd ms

/-- Index of the first occurrence of `c` in `s`, if any. -/
def pyFindAux (c : Char) : List Char → Option Nat
  | [] => none
  | x :: t => if x = c then some 0 else (pyFindAux c t).map (fun n => n + 1)

/-- Python `str.find` for a single character: index of first occurrence or
`-1`. -/
def pyFind (s : List Char) (c : Char) : Int :=
  match pyFindAux c s with
  | some n => (n : Int)
  | none => -1

/-- Python `str.replace` with a non-empty pattern: replace every
non-overlapping occurrence, scanning left to right.  (`old_notice`, the only
pattern the source passes, is a regex match containing `Copyright`, hence
non-empty; the empty-pattern case keeps the string.) -/
def replaceAllAux (pat rep : List Char) : Nat → List Char → List Char
  | 0, s => s
  | fuel + 1, s =>
    if pat ≠ [] ∧ pat.isPrefixOf s then
      rep ++ replaceAllAux pat rep fuel (s.drop pat.length)
    else
      match s with
      | [] => []
      | c :: t => c :: replaceAllAux pat rep fuel t

/-- Entry point for the replacer; the fuel `s.length` bounds the recursion
depth (every step strictly shortens the scanned string). -/
def replaceAll (s pat rep : List Char) : List Char :=
  replaceAllAux pat rep s.length s

/-- All positions at which `pat` occurs in `s` (including position
`s.length` for the empty pattern), in increasing order. -/
def occList (s pat : List Char) : List Nat :=
  (if pat.isPrefixOf s then [0] else []) ++
    (match s with
     | [] => []
     | _ :: t => (occList t pat).map (fun n => n + 1))

/-- Decoded-content outcomes of the read phase of `add_or_update_copyright`:
UTF-8 success, UTF-8 `UnicodeDecodeError` then Latin-1 success, UTF-8
`UnicodeDecodeError` then a Latin-1 exception (caught, message `msg`), or a
non-decode exception on the first read (caught, message `msg`). -/
inductive ReadResult where
  | utf8 (content : List Char)
  | latin1 (content : List Char)
  | latin1Failed (msg : List Char)
  | readFailed (msg : List Char)
deriving DecidableEq

/-- Model of one file as the reconciler sees it: its extension (from
`os.path.splitext`), what reading it yields, and whether writing it raises
(`some msg`: any `open(..., "w")`/`write` raises an exception with that
message — the source does not wrap its writes in `try`). -/
structure FileModel where
  extension : String
  read : ReadResult
  writeError : Option (List Char)
deriving DecidableEq

/-- The five per-file outcome statuses returned by the reconciler. -/
inductive Outcome where
  | added
  | updated
  | skipped
  | ignored
  | error
deriving DecidableEq

/-- Result of one reconciliation: the status string, the second component of
the returned pair (prior year for `updated`, diagnostic for `error`), and
the content written to the file (`none` when the file is untouched). -/
structure RunResult where
  status : Outcome
  payload : Option (List Char)
  written : Option (List Char)
deriving DecidableEq

/-- Core of `add_or_update_copyright` once content has been decoded:
ignore check, header detection (always against the configured `USERNAME`),
skip/update decision, or insertion after shebang / import block.  A raised
write exception escapes as `Except.error`. -/
def reconcile (cfgUsername cfgGithub : List Char) (currentYear : Nat)
    (extension : String) (content : List Char) (force : Bool)
    (custom_username custom_github : Option (List Char))
    (writeError : Option (List Char)) : Except (List Char) RunResult :=
  if should_ignore_file content then .ok ⟨.ignored, none, none⟩
  else
    let language := get_language_from_extension extension
    let username := custom_username.getD cfgUsername
    let github := custom_github.getD cfgGithub
    match check_existing_copyright content language cfgUsername with
    | some (year0, old_notice) =>
      if year0 = (Nat.repr currentYear).toList ∧ force = false then
        .ok ⟨.skipped, none, none⟩
      else
        let copyright_notice := renderNotice language currentYear username github
        let modified := replaceAll content old_notice copyright_notice
        match writeError with
        | some m => .error m
        | none => .ok ⟨.updated, some year0, some modified⟩
    | none =>
      let copyright_notice := renderNotice language currentYear username github
      let modified :=
        if language = "python" ∧ (("#!").toList).isPrefixOf content then
          let shebang_end := (pyFind content '\n' + 1).toNat
          content.take shebang_end ++ (("\n").toList) ++ copyright_notice
            ++ (("\n\n").toList) ++ content.drop shebang_end
        else
          let imports_end := detect_import_blocks content language
          if imports_end > 0 then
            content.take imports_end ++ (("\n\n").toList) ++ copyright_notice
              ++ (("\n\n").toList) ++ (content.drop imports_end).dropWhile isPySpace
          else
            copyright_notice ++ (("\n\n").toList) ++ content
      match writeError with
      | some m => .error m
      | none => .ok ⟨.added, none, some modified⟩

/-- `add_or_update_copyright(file_path, force_update, custom_username,
custom_github)`: read (with the source's two-stage decode and its caught
exceptions), then reconcile.  `Except.error` models an exception escaping
the function (the source catches exceptions only around the reads). -/
def add_or_update_copyright (cfgUsername cfgGithub : List Char) (currentYear : Nat)
    (file : FileModel) (force : Bool)
    (custom_username custom_github : Option (List Char)) : Except (List Char) RunResult :=
  match file.read with
  | .readFailed m => .ok ⟨.error, some m, none⟩
  | .latin1Failed m => .ok ⟨.error, some ((("Encoding error: ").toList) ++ m), none⟩
  | .utf8 content =>
    reconcile cfgUsername cfgGithub currentYear file.extension content force
      custom_username custom_github file.writeError
  | .latin1 content =>
    reconcile cfgUsername cfgGithub currentYear file.extension content force
      custom_username custom_github file.writeError

/-- The per-file loop of `main`: each file is processed in turn with no
per-file exception handler, so an exception raised inside
`add_or_update_copyright` (e.g. a write failure) propagates and ends the
batch. -/
def runBatch (cfgUsername cfgGithub : List Char) (currentYear : Nat) (force : Bool)
    (custom_username custom_github : Option (List Char)) :
    List FileModel → Except (List Char) (List RunResult)
  | [] => .ok []
  | f :: rest =>
    match add_or_update_copyright cfgUsername cfgGithub currentYear f force
      custom_username custom_github with
    | .error m => .error m
    | .ok r =>
      match runBatch cfgUsername cfgGithub currentYear force
        custom_username custom_github rest with
      | .error m => .error m
      | .ok rs => .ok (r :: rs)

/-- Every successful run of the matcher hands the continuation a position
between the start position and the end of the string. -/
theorem mtch_bound (re : RE) : ∀ (s : List Char) (i : Nat) (k : Nat → Option Nat) (v : Nat),
    i ≤ s.length → mtch re s i k = some v →
    ∃ j, i ≤ j ∧ j ≤ s.length ∧ k j = some v := by
  induction re with
  | lit l =>
    intro s i k v hi h
    rw [mtch] at h
    split at h
    · rename_i hpre
      have hle := (isPrefixOf_to_IsPrefix hpre).length_le
      rw [List.length_drop] at hle
      exact ⟨i + l.length, by omega, by omega, h⟩
    · cases h
  | cls p =>
    intro s i k v hi h
    rw [mtch] at h
    split at h
    · rename_i hlt
      split at h
      · exact ⟨i + 1, by omega, by omega, h⟩
      · cases h
    · cases h
  | starG p =>
    intro s i k v hi h
    rw [mtch] at h
    obtain ⟨t, ht, hk⟩ := tryDown_eq_some k i v _ h
    have hle := npre_le p s i
    exact ⟨i + t, by omega, by omega, hk⟩
  | starL p =>
    intro s i k v hi h
    rw [mtch] at h
    obtain ⟨t, ht, hk⟩ := tryFrom_eq_some k v _ i h
    have hle := npre_le p s i
    exact ⟨i + t, by omega, by omega, hk⟩
  | plusG p =>
    intro s i k v hi h
    rw [mtch] at h
    split at h
    · cases h
    · rename_i m hm
      obtain ⟨t, ht, hk⟩ := tryDown_eq_some k (i + 1) v m h
      have hle := npre_le p s i
      exact ⟨i + 1 + t, by omega, by omega, hk⟩
  | optA l =>
    intro s i k v hi h
    rw [mtch] at h
    split at h
    · rename_i hpre
      have hle := (isPrefixOf_to_IsPrefix hpre).length_le
      rw [List.length_drop] at hle
      cases hx : k (i + l.length) with
      | some w =>
        rw [hx] at h
        simp only [Option.orElse, Option.some.injEq] at h
        exact ⟨i + l.length, by omega, by omega, by rw [hx]; exact congrArg some h⟩
      | none =>
        rw [hx] at h
        simp only [Option.orElse, Option.none_orElse] at h
        exact ⟨i, Nat.le_refl i, hi, h⟩
    · exact ⟨i, Nat.le_refl i, hi, h⟩
  | seq a b iha ihb =>
    intro s i k v hi h
    rw [mtch] at h
    obtain ⟨j, hij, hjl, hk⟩ := iha s i _ v hi h
    obtain ⟨j2, hj2, hj2l, hk2⟩ := ihb s j k v hjl hk
    exact ⟨j2, by omega, hj2l, hk2⟩
  | alt a b iha ihb =>
    intro s i k v hi h
    rw [mtch] at h
    cases hx : mtch a s i k with
    | some w =>
      rw [hx] at h
      simp only [Option.orElse, Option.some.injEq] at h
      obtain ⟨j, h1, h2, h3⟩ := iha s i k w hi hx
      exact ⟨j, h1, h2, by rw [h3]; exact congrArg some h⟩
    | none =>
      rw [hx] at h
      simp only [Option.orElse, Option.none_orElse] at h
      exact ihb s i k v hi h
  | bol =>
    intro s i k v hi h
    rw [mtch] at h
    split at h
    · exact ⟨i, Nat.le_refl i, hi, h⟩
    · split at h
      · split at h
        · exact ⟨i, Nat.le_refl i, hi, h⟩
        · cases h
      · cases h
  | eol =>
    intro s i k v hi h
    rw [mtch] at h
    split at h
    · exact ⟨i, Nat.le_refl i, hi, h⟩
    · split at h
      · split at h
        · exact ⟨i, Nat.le_refl i, hi, h⟩
        · cases h
      · cases h
  | eosPy =>
    intro s i k v hi h
    rw [mtch] at h
    split at h
    · exact ⟨i, Nat.le_refl i, hi, h⟩
    · split at h
      · split at h
        · split at h
          · exact ⟨i, Nat.le_refl i, hi, h⟩
          · cases h
        · cases h
      · cases h

/-- A successful scan reports a start position no earlier than where the scan
began, and a match of the pattern there. -/
theorem searchFrom_some_elim (re : RE) (s : List Char) :
    ∀ fuel i r, i ≤ s.length → searchFrom re s fuel i = some r →
      i ≤ r.1 ∧ r.1 ≤ s.length ∧ matchEnd re s r.1 = some r.2 := by
  intro fuel
  induction fuel with
  | zero => intro i r hi h; cases h
  | succ fuel ih =>
    intro i r hi h
    rw [searchFrom] at h
    split at h
    · rename_i e hx
      simp only [Option.some.injEq] at h
      subst h
      exact ⟨Nat.le_refl i, hi, hx⟩
    · split at h
      · obtain ⟨h1, h2, h3⟩ := ih (i + 1) r (by omega) h
        exact ⟨by omega, h2, h3⟩
      · cases h

/-- If the pattern matches at some position within the fuel budget, the scan
succeeds. -/
theorem searchFrom_isSome_of (re : RE) (s : List Char) :
    ∀ fuel i j, i ≤ j → j ≤ s.length → j < i + fuel → (matchEnd re s j).isSome →
      (searchFrom re s fuel i).isSome := by
  intro fuel
  induction fuel with
  | zero => intro i j h1 h2 h3 h4; omega
  | succ fuel ih =>
    intro i j h1 h2 h3 h4
    rw [searchFrom]
    cases hx : matchEnd re s i with
    | some e => simp
    | none =>
      have hne : i ≠ j := by
        intro he
        subst he
        rw [hx] at h4
        cases h4
      rw [if_pos (show i < s.length by omega)]
      exact ih (i + 1) j (by omega) h2 (by omega) h4

/-- `re.search` finds a match whenever one exists somewhere in the string. -/
theorem reSearch_isSome_of (re : RE) (s : List Char) (j : Nat)
    (hj : j ≤ s.length) (h : (matchEnd re s j).isSome) : (reSearch re s).isSome :=
  searchFrom_isSome_of re s (s.length + 1) 0 j (Nat.zero_le j) hj (by omega) h

/-- A whitespace run followed by a literal is matched by
`\s*` followed by that literal. -/
theorem seqws_intro (s : List Char) (lit2 : List Char) (hlit2 : lit2 ≠ [])
    (j k0 : Nat) (hjk : j ≤ k0)
    (hws : ∀ t, j ≤ t → t < k0 → ∃ hb : t < s.length, isPySpace (s.get ⟨t, hb⟩))
    (hpre : lit2.isPrefixOf (s.drop k0)) :
    (mtch (.seq (.starG isPySpace) (.lit lit2)) s j some).isSome := by
  have hk0 : k0 < s.length := by
    by_contra hc
    rw [List.drop_of_length_le (by omega)] at hpre
    cases lit2 with
    | nil => exact hlit2 rfl
    | cons c t => simp [List.isPrefixOf] at hpre
  have hn : k0 - j ≤ npre isPySpace s j := by
    apply npre_ge isPySpace s j (k0 - j) (by omega)
    intro t ht
    obtain ⟨hb, hsp⟩ := hws (j + t) (by omega) (by omega)
    exact ⟨hb, hsp⟩
  have hk : (fun j2 => mtch (.lit lit2) s j2 some) (j + (k0 - j)) = some (k0 + lit2.length) := by
    have heq : j + (k0 - j) = k0 := by omega
    rw [heq]
    show mtch (.lit lit2) s k0 some = some (k0 + lit2.length)
    rw [mtch, if_pos hpre]
  exact tryDown_some_of _ j (k0 - j) _ hk _ hn

/-- An option with a `some` first component survives `orElse`. -/
theorem orElse_isSome_left {x : Option Nat} {f : Unit → Option Nat}
    (h : x.isSome) : (x.orElse f).isSome := by
  cases x with
  | some v => simp [Option.orElse]
  | none => cases h

/-- An `orElse` whose first component is `none` reduces to its second. -/
theorem orElse_none_left {x : Option Nat} {f : Unit → Option Nat}
    (hx : x = none) : x.orElse f = f () := by
  subst hx
  simp [Option.orElse]

/-- Soundness half of the ignore marker: a comment opener (`//`, `#` or
`/*`), optional whitespace, and the literal `credit-ignore` anywhere in the
content make `should_ignore_file` report true. -/
theorem should_ignore_intro (content : List Char) (i k0 : Nat) (op : List Char)
    (hop : op = ("//").toList ∨ op = ("#").toList ∨ op = ("/*").toList)
    (hpre : op.isPrefixOf (content.drop i))
    (hik : i + op.length ≤ k0)
    (hws : ∀ t, i + op.length ≤ t → t < k0 →
      ∃ hb : t < content.length, isPySpace (content.get ⟨t, hb⟩))
    (hci : (("credit-ignore").toList).isPrefixOf (content.drop k0)) :
    should_ignore_file content = true := by
  have htail : (mtch (.seq (.starG isPySpace) (.lit (("credit-ignore").toList)))
      content (i + op.length) some).isSome :=
    seqws_intro content _ (by decide) (i + op.length) k0 hik hws hci
  have hi : i ≤ content.length := by
    rcases isPrefixOf_to_IsPrefix hpre with ⟨rest, hrest⟩
    have hd : (content.drop i).length = op.length + rest.length := by
      rw [← hrest]
      simp
    rw [List.length_drop] at hd
    have hopne : op ≠ [] := by
      rcases hop with rfl | rfl | rfl <;> decide
    have : 0 < op.length := List.length_pos.mpr hopne
    omega
  have hmatch : (matchEnd IGNORE_PATTERN content i).isSome := by
    show (mtch (.alt (.lit (("//").toList)) (.alt (.lit (("#").toList)) (.lit (("/*").toList))))
      content i (fun j => mtch (.seq (.starG isPySpace) (.lit (("credit-ignore").toList)))
        content j some)).isSome
    rcases isPrefixOf_to_IsPrefix hpre with ⟨rest, hrest⟩
    rcases hop with rfl | rfl | rfl
    · -- opener `//`
      rw [mtch]
      apply orElse_isSome_left
      rw [mtch, if_pos hpre]
      exact htail
    · -- opener `#`: the `//` branch fails since the content has `#` here
      rw [mtch]
      rw [orElse_none_left]
      · rw [mtch]
        apply orElse_isSome_left
        rw [mtch, if_pos hpre]
        exact htail
      · rw [mtch, if_neg, ]
        intro hcontra
        rw [← hrest] at hcontra
        simp [List.isPrefixOf] at hcontra
    · -- opener `/*`: the `//` branch fails since the second char is `*`
      rw [mtch]
      rw [orElse_none_left]
      · rw [mtch]
        rw [orElse_none_left]
        · rw [mtch, if_pos hpre]
          exact htail
        · rw [mtch, if_neg]
          intro hcontra
          rw [← hrest] at hcontra
          simp [List.isPrefixOf] at hcontra
      · rw [mtch, if_neg]
        intro hcontra
        rw [← hrest] at hcontra
        simp [List.isPrefixOf] at hcontra
  exact reSearch_isSome_of IGNORE_PATTERN content i hi hmatch

/-- Four digits at `j` require four characters after `j`. -/
theorem digits4At_le (s : List Char) (j : Nat) (h : digits4At s j = true) :
    j + 4 ≤ s.length := by
  unfold digits4At at h
  split at h
  · rename_i a b c d heq
    have hlen : ((s.drop j).take 4).length = 4 := by rw [heq]; rfl
    rw [List.length_take, List.length_drop] at hlen
    omega
  · cases h

/-- The four characters at `j` are decimal digits. -/
theorem digits4At_spec (s : List Char) (j : Nat) (h : digits4At s j = true) :
    ((s.drop j).take 4).length = 4 ∧ ∀ c ∈ (s.drop j).take 4, c.isDigit := by
  unfold digits4At at h
  split at h
  · rename_i a b c d heq
    simp only [Bool.and_eq_true] at h
    refine ⟨by rw [heq]; rfl, ?_⟩
    intro x hx
    rw [heq] at hx
    simp only [List.mem_cons, List.not_mem_nil, or_false] at hx
    rcases hx with rfl | rfl | rfl | rfl
    · exact h.1.1.1
    · exact h.1.1.2
    · exact h.1.2
    · exact h.2
  · cases h

/-- Structure of a successful year-group match at a position. -/
theorem grpAt_bound (pre post : RE) (s : List Char) (i j e : Nat)
    (hi : i ≤ s.length) (h : grpAt pre post s i = some (j, e)) :
    i ≤ j ∧ j + 4 ≤ e ∧ e ≤ s.length ∧ digits4At s j = true := by
  unfold grpAt at h
  cases hm : mtch pre s i (fun j' =>
      if digits4At s j' then
        (mtch post s (j' + 4) some).map (fun e' => j' * (s.length + 1) + e')
      else none) with
  | none => rw [hm] at h; cases h
  | some v =>
    rw [hm] at h
    simp only [Option.map_some', Option.some.injEq, Prod.mk.injEq] at h
    obtain ⟨hj, he⟩ := h
    obtain ⟨j', hij', hj'l, hk⟩ := mtch_bound pre s i _ v hi hm
    by_cases hd : digits4At s j' = true
    · rw [if_pos hd] at hk
      cases hpost : mtch post s (j' + 4) some with
      | none => rw [hpost] at hk; cases hk
      | some e' =>
        rw [hpost] at hk
        simp only [Option.map_some', Option.some.injEq] at hk
        have hd4 : j' + 4 ≤ s.length := digits4At_le s j' hd
        obtain ⟨j2, hj2a, hj2b, hj2c⟩ := mtch_bound post s (j' + 4) some e' hd4 hpost
        have hj2e : j2 = e' := by
          simpa using hj2c
        have he'lo : j' + 4 ≤ e' := by omega
        have he'hi : e' ≤ s.length := by omega
        have hv : v = e' + j' * (s.length + 1) := by omega
        have hdiv : v / (s.length + 1) = j' := by
          rw [hv, Nat.add_mul_div_right _ _ (by omega : 0 < s.length + 1),
            Nat.div_eq_of_lt (by omega)]
          omega
        have hmod : v % (s.length + 1) = e' := by
          rw [hv, Nat.add_mul_mod_self_right, Nat.mod_eq_of_lt (by omega)]
        rw [hdiv] at hj
        rw [hmod] at he
        subst hj
        subst he
        exact ⟨hij', he'lo, he'hi, hd⟩
    · rw [if_neg hd] at hk
      cases hk

/-- Structure of a successful year-group search. -/
theorem grpSearchFrom_bound (pre post : RE) (s : List Char) :
    ∀ fuel i a j e, i ≤ s.length → grpSearchFrom pre post s fuel i = some (a, j, e) →
      i ≤ a ∧ a ≤ j ∧ j + 4 ≤ e ∧ e ≤ s.length ∧ digits4At s j = true := by
  intro fuel
  induction fuel with
  | zero => intro i a j e hi h; cases h
  | succ fuel ih =>
    intro i a j e hi h
    rw [grpSearchFrom] at h
    split at h
    · rename_i j0 e0 hx
      simp only [Option.some.injEq, Prod.mk.injEq] at h
      obtain ⟨ha, hj, he⟩ := h
      obtain ⟨h1, h2, h3, h4⟩ := grpAt_bound pre post s i j0 e0 hi hx
      rw [hj] at h4
      exact ⟨by omega, by omega, by omega, by omega, h4⟩
    · split at h
      · obtain ⟨h1, h2, h3, h4, h5⟩ := ih (i + 1) a j e (by omega) h
        exact ⟨by omega, h2, h3, h4, h5⟩
      · cases h

/-- Structure of the first matching pattern of `check_existing_copyright`. -/
theorem firstHeadMatch_bound (content : List Char) :
    ∀ ps a j e, firstHeadMatch content ps = some (a, j, e) →
      a ≤ j ∧ j + 4 ≤ e ∧ e ≤ content.length ∧ digits4At content j = true := by
  intro ps
  induction ps with
  | nil => intro a j e h; cases h
  | cons p rest ih =>
    intro a j e h
    rw [firstHeadMatch] at h
    split at h
    · rename_i r hx
      simp only [Option.some.injEq] at h
      subst h
      obtain ⟨h1, h2, h3, h4, h5⟩ :=
        grpSearchFrom_bound p.pre p.post content (content.length + 1) 0 a j e
          (Nat.zero_le _) hx
      exact ⟨h2, h3, h4, h5⟩
    · exact ih a j e h

/-- No pattern matches exactly when the whole loop reports nothing. -/
theorem firstHeadMatch_eq_none (content : List Char) :
    ∀ ps, firstHeadMatch content ps = none ↔
      ∀ p ∈ ps, grpSearch p.pre p.post content = none := by
  intro ps
  induction ps with
  | nil => simp [firstHeadMatch]
  | cons p rest ih =>
    rw [firstHeadMatch]
    cases hx : grpSearch p.pre p.post content with
    | some r =>
      simp only [List.mem_cons]
      constructor
      · intro h; cases h
      · intro h
        have := h p (Or.inl rfl)
        rw [hx] at this
        cases this
    | none =>
      rw [ih]
      simp only [List.mem_cons]
      constructor
      · intro h q hq
        rcases hq with rfl | hq
        · exact hx
        · exact h q hq
      · intro h q hq
        exact h q (Or.inr hq)

/-- The loop returns the result of the first pattern that matches: a match
splits the pattern list into a failing prefix and the winning pattern. -/
theorem firstHeadMatch_split (content : List Char) :
    ∀ ps r, firstHeadMatch content ps = some r →
      ∃ ps1 p ps2, ps = ps1 ++ p :: ps2 ∧
        (∀ q ∈ ps1, grpSearch q.pre q.post content = none) ∧
        grpSearch p.pre p.post content = some r := by
  intro ps
  induction ps with
  | nil => intro r h; cases h
  | cons p rest ih =>
    intro r h
    rw [firstHeadMatch] at h
    split at h
    · rename_i r0 hx
      simp only [Option.some.injEq] at h
      subst h
      refine ⟨[], p, rest, rfl, ?_, hx⟩
      intro q hq
      cases hq
    · rename_i hx
      obtain ⟨ps1, q, ps2, heq, hnone, hsome⟩ := ih r h
      refine ⟨p :: ps1, q, ps2, by rw [heq]; rfl, ?_, hsome⟩
      intro x hmem
      rcases List.mem_cons.mp hmem with rfl | hmem2
      · exact hx
      · exact hnone x hmem2

/-- Structure of a successful `check_existing_copyright`. -/
theorem check_some_bounds (content : List Char) (language : String)
    (username : List Char) (y sp : List Char)
    (h : check_existing_copyright content language username = some (y, sp)) :
    ∃ a j e, firstHeadMatch content (headPatterns (styleFor language) username)
        = some (a, j, e) ∧
      a ≤ j ∧ j + 4 ≤ e ∧ e ≤ content.length ∧ digits4At content j = true ∧
      y = (content.drop j).take 4 ∧ sp = (content.drop a).take (e - a) := by
  unfold check_existing_copyright at h
  split at h
  · rename_i a j e hx
    simp only [Option.some.injEq, Prod.mk.injEq] at h
    obtain ⟨rfl, rfl⟩ := h
    obtain ⟨h1, h2, h3, h4⟩ := firstHeadMatch_bound content _ a j e hx
    exact ⟨a, j, e, hx, h1, h2, h3, h4, rfl, rfl⟩
  · cases h

/-- The matched span of a successful detection is non-empty (it contains at
least the four year digits). -/
theorem check_some_span_ne_nil (content : List Char) (language : String)
    (username : List Char) (y sp : List Char)
    (h : check_existing_copyright content language username = some (y, sp)) :
    sp ≠ [] := by
  obtain ⟨a, j, e, hx, h1, h2, h3, h4, hy, hsp⟩ :=
    check_some_bounds content language username y sp h
  subst hsp
  intro hc
  have hlen : ((content.drop a).take (e - a)).length = 0 := by rw [hc]; rfl
  rw [List.length_take, List.length_drop] at hlen
  omega

/-- Membership in the occurrence list is exactly being a prefix position. -/
theorem occList_mem (pat : List Char) : ∀ (s : List Char) (q : Nat),
    q ∈ occList s pat ↔ (pat.isPrefixOf (s.drop q) ∧ q ≤ s.length) := by
  intro s
  induction s with
  | nil =>
    intro q
    rw [occList]
    constructor
    · intro h
      simp only [List.append_nil] at h
      split at h
      · rename_i hp
        have h0 : q = 0 := by simpa using h
        subst h0
        exact ⟨hp, Nat.le_refl 0⟩
      · cases h
    · rintro ⟨h1, h2⟩
      have h0 : q = 0 := by simp only [List.length_nil] at h2; omega
      subst h0
      rw [List.drop_zero] at h1
      rw [if_pos h1]
      simp
  | cons c t ih =>
    intro q
    rw [occList]
    rw [List.mem_append]
    constructor
    · intro h
      rcases h with h | h
      · split at h
        · rename_i hp
          have h0 : q = 0 := by simpa using h
          subst h0
          exact ⟨hp, by simp⟩
        · cases h
      · rw [List.mem_map] at h
        obtain ⟨n, hn, heq⟩ := h
        obtain ⟨hn1, hn2⟩ := (ih n).mp hn
        subst heq
        refine ⟨hn1, ?_⟩
        simp only [List.length_cons]
        omega
    · rintro ⟨h1, h2⟩
      cases q with
      | zero =>
        left
        rw [List.drop_zero] at h1
        rw [if_pos h1]
        simp
      | succ q' =>
        right
        rw [List.mem_map]
        refine ⟨q', (ih q').mpr ⟨h1, ?_⟩, rfl⟩
        simp only [List.length_cons] at h2
        omega

/-- One-step unfolding of `replaceAllAux` on positive fuel. -/
theorem replaceAllAux_succ (pat rep : List Char) (fuel : Nat) (s : List Char) :
    replaceAllAux pat rep (fuel + 1) s =
      if pat ≠ [] ∧ pat.isPrefixOf s then
        rep ++ replaceAllAux pat rep fuel (s.drop pat.length)
      else
        match s with
        | [] => []
        | c :: t => c :: replaceAllAux pat rep fuel t := rfl

/-- If the pattern occurs nowhere, replacement is the identity. -/
theorem replaceAllAux_id (pat rep : List Char) :
    ∀ fuel (s : List Char), (∀ q, ¬ pat.isPrefixOf (s.drop q)) →
      replaceAllAux pat rep fuel s = s := by
  intro fuel
  induction fuel with
  | zero => intro s h; rfl
  | succ fuel ih =>
    intro s h
    rw [replaceAllAux_succ]
    rw [if_neg (by
      rintro ⟨hne, hp⟩
      exact h 0 hp)]
    cases s with
    | nil => rfl
    | cons c t =>
      have ht : ∀ q, ¬ pat.isPrefixOf (t.drop q) := fun q => h (q + 1)
      show c :: replaceAllAux pat rep fuel t = c :: t
      rw [ih t ht]

/-- If the pattern occurs at exactly one position, replacement splices the
replacement into that one spot and leaves everything else untouched. -/
theorem replaceAllAux_single (pat rep : List Char) (hne : pat ≠ []) :
    ∀ fuel (s : List Char) (p : Nat), s.length ≤ fuel →
      pat.isPrefixOf (s.drop p) →
      (∀ q, pat.isPrefixOf (s.drop q) → q = p) →
      replaceAllAux pat rep fuel s = s.take p ++ rep ++ s.drop (p + pat.length) := by
  intro fuel
  induction fuel with
  | zero =>
    intro s p hf hp huniq
    have hs : s = [] := List.length_eq_zero.mp (by omega)
    subst hs
    rw [List.drop_nil] at hp
    cases pat with
    | nil => exact absurd rfl hne
    | cons a b => simp [List.isPrefixOf] at hp
  | succ fuel ih =>
    intro s p hf hp huniq
    rw [replaceAllAux_succ]
    by_cases h0 : pat.isPrefixOf s
    · have hp0 : p = 0 := (huniq 0 h0).symm
      subst hp0
      rw [if_pos ⟨hne, h0⟩]
      simp only [List.take_zero, List.nil_append, Nat.zero_add]
      congr 1
      apply replaceAllAux_id
      intro q hq
      rw [List.drop_drop] at hq
      have := huniq (pat.length + q) hq
      have hpos : 0 < pat.length := List.length_pos.mpr hne
      omega
    · rw [if_neg (by rintro ⟨_, hc⟩; exact h0 hc)]
      cases s with
      | nil =>
        rw [List.drop_nil] at hp
        cases pat with
        | nil => exact absurd rfl hne
        | cons a b => simp [List.isPrefixOf] at hp
      | cons c t =>
        have hpne : p ≠ 0 := by
          intro hc
          subst hc
          exact h0 hp
        obtain ⟨p', rfl⟩ : ∃ p', p = p' + 1 := ⟨p - 1, by omega⟩
        have h1 : pat.isPrefixOf (t.drop p') := hp
        have h2 : ∀ q, pat.isPrefixOf (t.drop q) → q = p' := by
          intro q hq
          have := huniq (q + 1) hq
          omega
        have hlen : t.length ≤ fuel := by
          simp only [List.length_cons] at hf
          omega
        show c :: replaceAllAux pat rep fuel t =
          (c :: t).take (p' + 1) ++ rep ++ (c :: t).drop (p' + 1 + pat.length)
        rw [ih t p' hlen h1 h2]
        have heq : p' + 1 + pat.length = (p' + pat.length) + 1 := by omega
        rw [heq]
        rfl

/-- `str.replace` on a string with a unique occurrence of the pattern. -/
theorem replaceAll_single (s pat rep : List Char) (p : Nat) (hne : pat ≠ [])
    (hp : pat.isPrefixOf (s.drop p)) (huniq : ∀ q, pat.isPrefixOf (s.drop q) → q = p) :
    replaceAll s pat rep = s.take p ++ rep ++ s.drop (p + pat.length) :=
  replaceAllAux_single pat rep hne s.length s p (Nat.le_refl _) hp huniq

/-- A singleton occurrence list pins down the unique occurrence. -/
theorem occList_singleton (s pat : List Char) (p : Nat) (hne : pat ≠ [])
    (h : occList s pat = [p]) :
    pat.isPrefixOf (s.drop p) ∧ ∀ q, pat.isPrefixOf (s.drop q) → q = p := by
  have hmem : p ∈ occList s pat := by rw [h]; exact List.mem_singleton.mpr rfl
  have h1 := (occList_mem pat s p).mp hmem
  refine ⟨h1.1, ?_⟩
  intro q hq
  have hqlen : q ≤ s.length := by
    by_contra hc
    rw [List.drop_of_length_le (by omega)] at hq
    cases pat with
    | nil => exact hne rfl
    | cons a b => simp [List.isPrefixOf] at hq
  have hq2 : q ∈ occList s pat := (occList_mem pat s q).mpr ⟨hq, hqlen⟩
  rw [h] at hq2
  exact List.mem_singleton.mp hq2

/-- `str.find` on a string whose first occurrence of the character is right
after a clean prefix. -/
theorem pyFind_append (A B : List Char) (c : Char) (h : c ∉ A) :
    pyFind (A ++ c :: B) c = (A.length : Int) := by
  induction A with
  | nil => simp [pyFind, pyFindAux]
  | cons a t ih =>
    have ha : a ≠ c := by
      intro hc
      exact h (by rw [hc]; exact List.mem_cons_self c t)
    have ht : c ∉ t := fun hc => h (List.mem_cons_of_mem a hc)
    have ih2 := ih ht
    unfold pyFind at ih2 ⊢
    rw [List.cons_append]
    unfold pyFindAux
    rw [if_neg ha]
    cases hx : pyFindAux c (t ++ c :: B) with
    | none => rw [hx] at ih2; cases ih2
    | some n =>
      rw [hx] at ih2
      simp only [Option.map_some']
      simp only [List.length_cons]
      have : (n : Int) = (t.length : Int) := ih2
      have hn : n = t.length := by omega
      subst hn
      push_cast
      ring

/-- The foldl that computes `lastEnd` only grows its accumulator. -/
theorem foldl_max_init (ms : List (Nat × Nat)) :
    ∀ a : Nat, a ≤ ms.foldl (fun acc x => max acc x.2) a := by
  induction ms with
  | nil => intro a; simp
  | cons y t ih =>
    intro a
    simp only [List.foldl_cons]
    have := ih (max a y.2)
    omega

/-- Every element's end is bounded by the fold, whatever the accumulator. -/
theorem foldl_max_mem (ms : List (Nat × Nat)) :
    ∀ (a : Nat) (m : Nat × Nat), m ∈ ms →
      m.2 ≤ ms.foldl (fun acc x => max acc x.2) a := by
  induction ms with
  | nil => intro a m h; cases h
  | cons y t ih =>
    intro a m h
    simp only [List.foldl_cons]
    rcases List.mem_cons.mp h with rfl | hmem
    · have := foldl_max_init t (max a m.2)
      omega
    · exact ih (max a y.2) m hmem

/-- Every element's end is at most `lastEnd`. -/
theorem lastEnd_ge (ms : List (Nat × Nat)) (m : Nat × Nat) (h : m ∈ ms) :
    m.2 ≤ lastEnd ms :=
  foldl_max_mem ms 0 m h

/-- Spec-side rendering of the header template (§4.2 of the spec): one single
generic rendering wrapping the copyright line and the fixed two-line notice in
the language's block delimiters from the comment-style table, defaulting to
the JavaScript style for unknown tags — with no special case for any
language. -/
def genericTemplateSpec (language : String) : List Char :=
  (styleFor language).block_start.toList
    ++ (("\nCopyright © {year} {name} ({github})\n\nNot to be shared, replicated, or used without prior consent.\nContact me for any enquiries\n").toList)
    ++ (styleFor language).block_end.toList

/-- Status projection of a reconciliation result: the outcome when the call
returns normally, `none` when it raises. -/
def statusOf (r : Except (List Char) RunResult) : Option Outcome :=
  match r with
  | .ok x => some x.status
  | .error _ => none

/-- Spec-side whitespace scan written from the amended claim: walk the
characters after the last import, keeping a count of the newline characters
seen so far (the count is never reset by intervening spaces or tabs), and
return the current index upon seeing a second newline, a non-whitespace
character, or the end of content. -/
def scanAmendedSpec : List Char → Nat → Nat → Nat
  | [], idx, _ => idx
  | c :: rest, idx, cnt =>
    if isPySpace c then
      if c = '\n' then
        (if cnt + 1 > 1 then idx else scanAmendedSpec rest (idx + 1) (cnt + 1))
      else scanAmendedSpec rest (idx + 1) cnt
    else idx

/-- Spec-side whitespace scan written from the claim as stated: count
*consecutive* newline characters (a space or tab between two newlines resets
the count), stopping at the second consecutive newline or at
non-whitespace. -/
def scanConsecSpec : List Char → Nat → Nat → Nat
  | [], idx, _ => idx
  | c :: rest, idx, cnt =>
    if isPySpace c then
      if c = '\n' then
        (if cnt + 1 > 1 then idx else scanConsecSpec rest (idx + 1) (cnt + 1))
      else scanConsecSpec rest (idx + 1) 0
    else idx

/-- Spec-side python insertion-point locator with the amended scan. -/
def pyLocatorAmendedSpec (content : List Char) : Nat :=
  let ms := findIter pyCombined content
  if ms.isEmpty then 0
  else scanAmendedSpec (content.drop (lastEnd ms)) (lastEnd ms) 0

/-- Spec-side python insertion-point locator with the consecutive-newline
scan of the claim as stated. -/
def pyLocatorConsecSpec (content : List Char) : Nat :=
  let ms := findIter pyCombined content
  if ms.isEmpty then 0
  else scanConsecSpec (content.drop (lastEnd ms)) (lastEnd ms) 0

/-- The index-based while loop of the source equals the list-based scan of
the amended claim. -/
theorem pyScanAux_eq_scanAmended (s : List Char) :
    ∀ fuel i cnt, s.length - i ≤ fuel →
      pyScanAux s fuel i cnt = scanAmendedSpec (s.drop i) i cnt := by
  intro fuel
  induction fuel with
  | zero =>
    intro i cnt hf
    have hle : s.length ≤ i := by omega
    rw [List.drop_of_length_le hle]
    rfl
  | succ fuel ih =>
    intro i cnt hf
    by_cases hi : i < s.length
    · have hdrop : s.drop i = (s.get ⟨i, hi⟩) :: s.drop (i + 1) := by
        rw [List.drop_eq_getElem_cons hi]
        rfl
      rw [pyScanAux, dif_pos hi, hdrop]
      show _ = scanAmendedSpec ((s.get ⟨i, hi⟩) :: s.drop (i + 1)) i cnt
      rw [scanAmendedSpec]
      by_cases hsp : isPySpace (s.get ⟨i, hi⟩)
      · rw [if_pos hsp, if_pos hsp]
        by_cases hnl : (s.get ⟨i, hi⟩) = '\n'
        · rw [if_pos hnl, if_pos hnl]
          by_cases hcnt : cnt + 1 > 1
          · rw [if_pos hcnt, if_pos hcnt]
          · rw [if_neg hcnt, if_neg hcnt]
            exact ih (i + 1) (cnt + 1) (by omega)
        · rw [if_neg hnl, if_neg hnl]
          exact ih (i + 1) cnt (by omega)
      · rw [if_neg hsp, if_neg hsp]
    · rw [pyScanAux, dif_neg hi, List.drop_of_length_le (by omega)]
      rfl

/-- The source's python scan equals the amended-spec scan. -/
theorem pyScan_eq_scanAmended (s : List Char) (i cnt : Nat) :
    pyScan s i cnt = scanAmendedSpec (s.drop i) i cnt :=
  pyScanAux_eq_scanAmended s (s.length - i) i cnt (Nat.le_refl _)

deriving instance DecidableEq for Except

/-- One-step unfolding of the batch loop. -/
theorem runBatch_cons (cfgUsername cfgGithub : List Char) (currentYear : Nat)
    (force : Bool) (custom_username custom_github : Option (List Char))
    (f : FileModel) (rest : List FileModel) :
    runBatch cfgUsername cfgGithub currentYear force custom_username custom_github (f :: rest)
      = match add_or_update_copyright cfgUsername cfgGithub currentYear f force
          custom_username custom_github with
        | .error m => .error m
        | .ok r =>
          match runBatch cfgUsername cfgGithub currentYear force
            custom_username custom_github rest with
          | .error m => .error m
          | .ok rs => .ok (r :: rs) := rfl

/-- C10: for every language tag, the header template returned by the renderer
equals one single generic rendering that wraps the copyright line and the
fixed two-line notice in that language's block delimiters from the
comment-style table (defaulting to the JavaScript style for unknown tags);
the python special-case branch produces text identical to the generic branch,
so the rendered output is determined solely by the table entry. -/
theorem credit_C10_template_generic :
    (∀ language, get_copyright_template language = genericTemplateSpec language) ∧
    (∀ l1 l2, styleFor l1 = styleFor l2 →
      get_copyright_template l1 = get_copyright_template l2) := by
  have hgen : ∀ language, get_copyright_template language = genericTemplateSpec language := by
    intro language
    unfold get_copyright_template genericTemplateSpec
    split
    · rfl
    · rfl
  refine ⟨hgen, ?_⟩
  intro l1 l2 h
  rw [hgen l1, hgen l2]
  unfold genericTemplateSpec
  rw [h]

/-- Witness for C10: two distinct language tags with the same table entry
render identically. -/
theorem credit_C10_witness :
    get_copyright_template ("javascript") = get_copyright_template ("golang") :=
  credit_C10_template_generic.2 ("javascript") ("golang") (by decide)

/-- Status of a reconciliation does not depend on the per-invocation
overrides. -/
theorem reconcile_status_indep (cfgU cfgG : List Char) (year : Nat) (ext : String)
    (content : List Char) (force : Bool) (we : Option (List Char))
    (u1 g1 u2 g2 : Option (List Char)) :
    statusOf (reconcile cfgU cfgG year ext content force u1 g1 we) =
    statusOf (reconcile cfgU cfgG year ext content force u2 g2 we) := by
  unfold reconcile
  split
  · rfl
  · dsimp only
    split
    · split
      · rfl
      · split
        · rfl
        · rfl
    · split
      · rfl
      · rfl

set_option maxRecDepth 100000 in
/-- C9: existing-header detection matches only against the
persisted-configuration owner name: the override changes the name rendered
into a newly written header but never the resulting status, so a header
previously written under an override name different from the configured name
is reported not-found and reconciliation adds a second header instead of
updating or skipping.  The concrete part runs twice with override `Alice`
under configured name `Kars`: both runs yield Added, and the second output
contains the first header twice. -/
theorem credit_C9_override_not_detected :
    (∀ (cfgU cfgG : List Char) (year : Nat) (file : FileModel) (force : Bool)
       (u1 g1 u2 g2 : Option (List Char)),
       statusOf (add_or_update_copyright cfgU cfgG year file force u1 g1) =
       statusOf (add_or_update_copyright cfgU cfgG year file force u2 g2)) ∧
    (add_or_update_copyright (("Kars").toList) (("g").toList) 2025
        ⟨".js", .utf8 (("x()\n").toList), none⟩ false (some (("Alice").toList)) none
      = .ok ⟨.added, none,
          some (("/*\nCopyright © 2025 Alice (g)\n\nNot to be shared, replicated, or used without prior consent.\nContact me for any enquiries\n*/\n\nx()\n").toList)⟩) ∧
    (add_or_update_copyright (("Kars").toList) (("g").toList) 2025
        ⟨".js", .utf8 (("/*\nCopyright © 2025 Alice (g)\n\nNot to be shared, replicated, or used without prior consent.\nContact me for any enquiries\n*/\n\nx()\n").toList), none⟩
        false (some (("Alice").toList)) none
      = .ok ⟨.added, none,
          some (("/*\nCopyright © 2025 Alice (g)\n\nNot to be shared, replicated, or used without prior consent.\nContact me for any enquiries\n*/\n\n/*\nCopyright © 2025 Alice (g)\n\nNot to be shared, replicated, or used without prior consent.\nContact me for any enquiries\n*/\n\nx()\n").toList)⟩) := by
  refine ⟨?_, by decide, by decide⟩
  intro cfgU cfgG year file force u1 g1 u2 g2
  unfold add_or_update_copyright
  cases file.read with
  | readFailed m => rfl
  | latin1Failed m => rfl
  | utf8 content => exact reconcile_status_indep cfgU cfgG year file.extension content force file.writeError u1 g1 u2 g2
  | latin1 content => exact reconcile_status_indep cfgU cfgG year file.extension content force file.writeError u1 g1 u2 g2

set_option maxRecDepth 100000 in
/-- C5 counterexample: a write failure is not caught — it raises out of the
reconciler and aborts the whole batch, so the second file is never processed
and no per-file Error outcome is produced. -/
theorem credit_C5_counterexample :
    runBatch (("Kars").toList) (("g").toList) 2025 false none none
      [⟨".js", .utf8 (("x()").toList), some (("disk full").toList)⟩,
       ⟨".js", .utf8 (("y()").toList), none⟩]
    = .error (("disk full").toList) := by decide

/-- C5 (amended): every read failure — a non-decode exception on the first
read, or a decode failure followed by a failing fallback read — is caught
and converted to outcome Error with a descriptive message, the file is left
untouched, and the batch continues with the remaining files; write failures,
however, are not caught and propagate. -/
theorem credit_C5_amended :
    (∀ (cfgU cfgG : List Char) (year : Nat) (force : Bool)
       (cu cg : Option (List Char)) (ext : String) (m : List Char)
       (we : Option (List Char)),
       add_or_update_copyright cfgU cfgG year ⟨ext, .readFailed m, we⟩ force cu cg
         = .ok ⟨.error, some m, none⟩) ∧
    (∀ (cfgU cfgG : List Char) (year : Nat) (force : Bool)
       (cu cg : Option (List Char)) (ext : String) (m : List Char)
       (we : Option (List Char)),
       add_or_update_copyright cfgU cfgG year ⟨ext, .latin1Failed m, we⟩ force cu cg
         = .ok ⟨.error, some ((("Encoding error: ").toList) ++ m), none⟩) ∧
    (∀ (cfgU cfgG : List Char) (year : Nat) (force : Bool)
       (cu cg : Option (List Char)) (ext : String) (m : List Char)
       (we : Option (List Char)) (rest : List FileModel),
       runBatch cfgU cfgG year force cu cg (⟨ext, .readFailed m, we⟩ :: rest)
         = (runBatch cfgU cfgG year force cu cg rest).map
             (fun rs => ⟨.error, some m, none⟩ :: rs)) := by
  refine ⟨?_, ?_, ?_⟩
  · intro cfgU cfgG year force cu cg ext m we
    rfl
  · intro cfgU cfgG year force cu cg ext m we
    rfl
  · intro cfgU cfgG year force cu cg ext m we rest
    cases hr : runBatch cfgU cfgG year force cu cg rest with
    | error e => simp only [runBatch_cons, add_or_update_copyright, hr, Except.map]
    | ok rs => simp only [runBatch_cons, add_or_update_copyright, hr, Except.map]

set_option maxRecDepth 100000 in
/-- C6 counterexample: on `import a\n \nb` the locator of the source stops at
the second newline (index 10) even though the two newlines are separated by a
space and hence not consecutive; a scan that counts only consecutive newlines
as the claim states would pass the blank-ish line and stop at the
non-whitespace `b` (index 11). -/
theorem credit_C6_counterexample :
    detect_import_blocks ((("import a\n \nb").toList)) ("python") = 10 ∧
    pyLocatorConsecSpec ((("import a\n \nb").toList)) = 11 := by
  constructor
  · decide
  · decide

set_option maxRecDepth 100000 in
/-- C6 (amended): the python-family locator collects all import-statement
lines, takes the greatest end offset, then scans forward through whitespace
counting newline characters — the counter is never reset by intervening
spaces or tabs — and returns the current index once a second newline has
been seen or upon hitting non-whitespace; for
`import os\nimport sys\n\ndef f(): pass` it returns 21, the offset of the
blank line immediately after `import sys`, not the start of `def f()`. -/
theorem credit_C6_amended :
    (∀ content, detect_import_blocks content ("python") = pyLocatorAmendedSpec content) ∧
    detect_import_blocks ((("import os\nimport sys\n\ndef f(): pass").toList)) ("python") = 21 := by
  constructor
  · intro content
    unfold detect_import_blocks pyLocatorAmendedSpec
    rw [if_neg (by decide), if_pos rfl]
    by_cases he : (findIter pyCombined content).isEmpty
    · rw [if_pos he, if_pos he]
    · rw [if_neg he, if_neg he]
      exact pyScan_eq_scanAmended content (lastEnd (findIter pyCombined content)) 0
  · decide

/-- C3: for every file whose content contains, anywhere, a comment opener
(`//`, `#` or `/*`) followed by optional whitespace and the literal token
`credit-ignore`, the reconciler returns outcome Ignored and does not modify
the file — whatever else the content holds (in particular an outdated owned
header) and whatever the options are, since the ignore check is decided
before header detection. -/
theorem credit_C3_ignore_precedence :
    ∀ (content : List Char) (i k0 : Nat) (op : List Char),
      (op = ("//").toList ∨ op = ("#").toList ∨ op = ("/*").toList) →
      op.isPrefixOf (content.drop i) →
      i + op.length ≤ k0 →
      (∀ t, i + op.length ≤ t → t < k0 →
        ∃ hb : t < content.length, isPySpace (content.get ⟨t, hb⟩)) →
      (("credit-ignore").toList).isPrefixOf (content.drop k0) →
      ∀ (cfgU cfgG : List Char) (year : Nat) (ext : String) (force : Bool)
        (cu cg : Option (List Char)) (we : Option (List Char)),
        add_or_update_copyright cfgU cfgG year ⟨ext, .utf8 content, we⟩ force cu cg
          = .ok ⟨.ignored, none, none⟩ := by
  intro content i k0 op hop hpre hik hws hci cfgU cfgG year ext force cu cg we
  have hig := should_ignore_intro content i k0 op hop hpre hik hws hci
  show reconcile cfgU cfgG year ext content force cu cg we = .ok ⟨.ignored, none, none⟩
  unfold reconcile
  rw [if_pos hig]

set_option maxRecDepth 100000 in
/-- Witness for C3: a file holding both an ignore marker and an outdated
owned header yields Ignored with no mutation. -/
theorem credit_C3_witness :
    add_or_update_copyright (("Kars").toList) (("g").toList) 2025
      ⟨".js", .utf8 ((("// credit-ignore\n/* Copyright © 1999 Kars */\nx()").toList)), none⟩
      false none none = .ok ⟨.ignored, none, none⟩ :=
  credit_C3_ignore_precedence _ 0 3 (("//").toList) (Or.inl rfl) (by decide) (by decide)
    (by
      intro t h1 h2
      have hl2 : (("//").toList).length = 2 := rfl
      rw [hl2] at h1
      have ht : t = 2 := by omega
      subst ht
      exact ⟨by decide, by decide⟩)
    (by decide) (("Kars").toList) (("g").toList) 2025 (".js") false none none none

set_option maxRecDepth 100000 in
/-- C8 counterexample: a python file whose content starts with `#!` but has
no newline.  `content.find("\n")` is `-1`, so the splice point becomes 0 and
the header is inserted *before* the shebang: the result does not keep the
shebang as its first line, contradicting the claim at this input. -/
theorem credit_C8_counterexample :
    add_or_update_copyright (("Kars").toList) (("g").toList) 2025
        ⟨".py", .utf8 (("#!x").toList), none⟩ false none none
      = .ok ⟨.added, none,
          some (("\n\"\"\"\nCopyright © 2025 Kars (g)\n\nNot to be shared, replicated, or used without prior consent.\nContact me for any enquiries\n\"\"\"\n\n#!x").toList)⟩ ∧
    (("#!").toList).isPrefixOf (("\n\"\"\"\nCopyright © 2025 Kars (g)\n\nNot to be shared, replicated, or used without prior consent.\nContact me for any enquiries\n\"\"\"\n\n#!x").toList) = false := by
  constructor
  · decide
  · decide

/-- C8 (amended): for every python file with no ignore marker and no existing
owned header whose content begins with `#!` *and contains a newline*, the new
header is inserted immediately after the shebang line (the shebang stays the
first line), with one blank line before and one blank line after the header
and the remainder of the content unchanged, regardless of any import-region
logic; when the shebang line is unterminated (no newline in the file) the
header is instead prepended before the shebang. -/
theorem credit_C8_amended :
    ∀ (cfgU cfgG A B : List Char) (year : Nat) (force : Bool)
      (cu cg : Option (List Char)),
      (("#!").toList).isPrefixOf (A ++ '\n' :: B) →
      '\n' ∉ A →
      should_ignore_file (A ++ '\n' :: B) = false →
      check_existing_copyright (A ++ '\n' :: B) ("python") cfgU = none →
      add_or_update_copyright cfgU cfgG year ⟨".py", .utf8 (A ++ '\n' :: B), none⟩ force cu cg
        = .ok ⟨.added, none,
            some (A ++ (("\n\n").toList)
              ++ renderNotice ("python") year (cu.getD cfgU) (cg.getD cfgG)
              ++ (("\n\n").toList) ++ B)⟩ := by
  intro cfgU cfgG A B year force cu cg hsb hnl hig hchk
  show reconcile cfgU cfgG year (".py") (A ++ '\n' :: B) force cu cg none = _
  unfold reconcile
  rw [if_neg (by simp [hig])]
  have hlang : get_language_from_extension (".py") = "python" := by decide
  dsimp only
  simp only [hlang, hchk]
  rw [if_pos (show True ∧
    (("#!").toList).isPrefixOf (A ++ '\n' :: B) = true from ⟨trivial, hsb⟩)]
  have hse : (pyFind (A ++ '\n' :: B) '\n' + 1).toNat = A.length + 1 := by
    rw [pyFind_append A B '\n' hnl]
    omega
  rw [hse]
  have htake : (A ++ '\n' :: B).take (A.length + 1) = A ++ ['\n'] := by
    rw [List.take_append_eq_append_take, List.take_of_length_le (by omega)]
    have h1 : A.length + 1 - A.length = 1 := by omega
    rw [h1]
    rfl
  have hdrop : (A ++ '\n' :: B).drop (A.length + 1) = B := by
    rw [List.drop_append_eq_append_drop, List.drop_of_length_le (by omega)]
    have h1 : A.length + 1 - A.length = 1 := by omega
    rw [h1]
    rfl
  rw [htake, hdrop]
  have hnl1 : (("\n").toList) = ['\n'] := rfl
  have hnl2 : (("\n\n").toList) = ['\n', '\n'] := rfl
  rw [hnl1, hnl2]
  simp [List.append_assoc]

set_option maxRecDepth 100000 in
/-- Witness for C8: the spec's own shebang example, with a terminated shebang
line, gets the header spliced right after the shebang. -/
theorem credit_C8_witness :
    add_or_update_copyright (("Kars").toList) (("g").toList) 2025
        ⟨".py", .utf8 ((("#!/usr/bin/env python3").toList) ++ '\n' :: (("print(1)").toList)), none⟩
        false none none
      = .ok ⟨.added, none,
          some ((("#!/usr/bin/env python3").toList) ++ (("\n\n").toList)
            ++ renderNotice ("python") 2025 (("Kars").toList) (("g").toList)
            ++ (("\n\n").toList) ++ (("print(1)").toList))⟩ :=
  credit_C8_amended (("Kars").toList) (("g").toList) (("#!/usr/bin/env python3").toList)
    (("print(1)").toList) 2025 false none none (by decide) (by decide) (by decide) (by decide)

set_option maxRecDepth 100000 in
/-- C1 counterexample: a file containing the same owned header twice.
`str.replace` replaces *every* occurrence, so the second copy — outside the
matched span — is also rewritten: the output is two fresh headers, not one
fresh header followed by the untouched old text, contradicting the claim's
frame property at this input. -/
theorem credit_C1_counterexample :
    add_or_update_copyright (("Kars").toList) (("g").toList) 2025
        ⟨".js", .utf8 ((("/* Copyright © 1999 Kars */\n/* Copyright © 1999 Kars */").toList)), none⟩
        false none none
      = .ok ⟨.updated, some (("1999").toList),
          some (("/*\nCopyright © 2025 Kars (g)\n\nNot to be shared, replicated, or used without prior consent.\nContact me for any enquiries\n*/\n/*\nCopyright © 2025 Kars (g)\n\nNot to be shared, replicated, or used without prior consent.\nContact me for any enquiries\n*/").toList)⟩ ∧
    (("/*\nCopyright © 2025 Kars (g)\n\nNot to be shared, replicated, or used without prior consent.\nContact me for any enquiries\n*/\n/*\nCopyright © 2025 Kars (g)\n\nNot to be shared, replicated, or used without prior consent.\nContact me for any enquiries\n*/").toList)
      ≠ (("/*\nCopyright © 2025 Kars (g)\n\nNot to be shared, replicated, or used without prior consent.\nContact me for any enquiries\n*/\n/* Copyright © 1999 Kars */").toList) := by
  constructor
  · decide
  · decide

/-- C1 (amended): for every file whose content contains an existing owned
copyright header whose year differs from the current year (or when a forced
update is requested), *and in which the matched span occurs exactly once as a
substring*, the reconciler returns outcome Updated with the prior year as
payload, the matched span is replaced verbatim by the freshly rendered header
for the current year, and every byte outside that span is unchanged.  (When
the matched text occurs more than once, `str.replace` rewrites every
occurrence, as the counterexample shows.) -/
theorem credit_C1_amended :
    ∀ (cfgU cfgG : List Char) (year : Nat) (ext : String) (content : List Char)
      (force : Bool) (cu cg : Option (List Char)) (y old : List Char) (p : Nat),
      should_ignore_file content = false →
      check_existing_copyright content (get_language_from_extension ext) cfgU = some (y, old) →
      (y ≠ (Nat.repr year).toList ∨ force = true) →
      occList content old = [p] →
      add_or_update_copyright cfgU cfgG year ⟨ext, .utf8 content, none⟩ force cu cg
        = .ok ⟨.updated, some y,
            some (content.take p
              ++ renderNotice (get_language_from_extension ext) year (cu.getD cfgU) (cg.getD cfgG)
              ++ content.drop (p + old.length))⟩ := by
  intro cfgU cfgG year ext content force cu cg y old p hig hchk hguard hocc
  have hne : old ≠ [] := check_some_span_ne_nil content _ cfgU y old hchk
  obtain ⟨hp, huniq⟩ := occList_singleton content old p hne hocc
  show reconcile cfgU cfgG year ext content force cu cg none = _
  unfold reconcile
  rw [if_neg (by simp [hig])]
  dsimp only
  simp only [hchk]
  rw [if_neg (by
    rintro ⟨h1, h2⟩
    rcases hguard with hy | hf
    · exact hy h1
    · rw [hf] at h2; cases h2)]
  rw [replaceAll_single content old _ p hne hp huniq]

set_option maxRecDepth 100000 in
/-- Witness for C1: a file holding the owned 1999 header exactly once is
updated in place, all other bytes unchanged. -/
theorem credit_C1_witness :
    add_or_update_copyright (("Kars").toList) (("g").toList) 2025
        ⟨".js", .utf8 ((("/* Copyright © 1999 Kars */\nz()").toList)), none⟩ false none none
      = .ok ⟨.updated, some (("1999").toList),
          some (((("/* Copyright © 1999 Kars */\nz()").toList)).take 0
            ++ renderNotice (get_language_from_extension (".js")) 2025 (("Kars").toList) (("g").toList)
            ++ ((("/* Copyright © 1999 Kars */\nz()").toList)).drop
                (0 + (("/* Copyright © 1999 Kars */").toList).length))⟩ :=
  credit_C1_amended (("Kars").toList) (("g").toList) 2025 (".js")
    (("/* Copyright © 1999 Kars */\nz()").toList) false none none
    (("1999").toList) (("/* Copyright © 1999 Kars */").toList) 0
    (by decide) (by decide) (Or.inl (by decide)) (by decide)

set_option maxRecDepth 1000000 in
/-- C2 counterexample: a JS file with an unclosed comment holding a foreign
copyright line (`/* Copyright © 1999 q`) and a real import.  The first run
finds no owned header and Adds one after the import.  On the second run the
detector's leftmost DOTALL match starts at the old `/*`, picks up the year
1999 from the stale text and reaches `Kars ... */` inside the freshly
inserted header, so the second run yields Updated — not Skipped — and
rewrites the file (destroying the import lines), contradicting the claim. -/
theorem credit_C2_counterexample :
    add_or_update_copyright (("Kars").toList) (("g").toList) 2025
        ⟨".js", .utf8 ((("/* Copyright © 1999 q\nimport a from 'a';\nb()").toList)), none⟩
        false none none
      = .ok ⟨.added, none,
          some (("/* Copyright © 1999 q\nimport a from 'a';\n\n\n/*\nCopyright © 2025 Kars (g)\n\nNot to be shared, replicated, or used without prior consent.\nContact me for any enquiries\n*/\n\nb()").toList)⟩ ∧
    add_or_update_copyright (("Kars").toList) (("g").toList) 2025
        ⟨".js", .utf8 (("/* Copyright © 1999 q\nimport a from 'a';\n\n\n/*\nCopyright © 2025 Kars (g)\n\nNot to be shared, replicated, or used without prior consent.\nContact me for any enquiries\n*/\n\nb()").toList), none⟩
        false none none
      = .ok ⟨.updated, some (("1999").toList),
          some (("/*\nCopyright © 2025 Kars (g)\n\nNot to be shared, replicated, or used without prior consent.\nContact me for any enquiries\n*/\n\nb()").toList)⟩ ∧
    Outcome.updated ≠ Outcome.skipped := by
  refine ⟨?_, ?_, by decide⟩
  · decide
  · decide

/-- C2 (amended): running the reconciler a second time in the same year with
the same identity and no force flag, immediately after a run that produced
Added or Updated, yields Skipped and leaves the content byte-identical —
provided the post-first-run content carries no ignore marker and the header
detector extracts the current year from it.  Both provisos hold for ordinary
content (see the witness) but can fail when pre-existing copyright-like
fragments straddle the freshly inserted header, as the counterexample
shows. -/
theorem credit_C2_amended :
    ∀ (cfgU cfgG : List Char) (year : Nat) (ext : String) (content1 : List Char)
      (cu cg : Option (List Char)) (r1 : RunResult) (W : List Char)
      (we2 : Option (List Char)),
      add_or_update_copyright cfgU cfgG year ⟨ext, .utf8 content1, none⟩ false cu cg = .ok r1 →
      (r1.status = .added ∨ r1.status = .updated) →
      r1.written = some W →
      should_ignore_file W = false →
      (∃ sp, check_existing_copyright W (get_language_from_extension ext) cfgU
        = some ((Nat.repr year).toList, sp)) →
      add_or_update_copyright cfgU cfgG year ⟨ext, .utf8 W, we2⟩ false cu cg
        = .ok ⟨.skipped, none, none⟩ := by
  intro cfgU cfgG year ext content1 cu cg r1 W we2 h1 h2 h3 hig hex
  obtain ⟨sp, hchk⟩ := hex
  show reconcile cfgU cfgG year ext W false cu cg we2 = _
  unfold reconcile
  rw [if_neg (by simp [hig])]
  dsimp only
  simp only [hchk]
  simp

set_option maxRecDepth 1000000 in
/-- Witness for C2: adding a header to `a()` and re-running in the same year
skips and leaves the file untouched. -/
theorem credit_C2_witness :
    add_or_update_copyright (("Kars").toList) (("g").toList) 2025
        ⟨".js", .utf8 (("/*\nCopyright © 2025 Kars (g)\n\nNot to be shared, replicated, or used without prior consent.\nContact me for any enquiries\n*/\n\na()").toList), none⟩
        false none none
      = .ok ⟨.skipped, none, none⟩ :=
  credit_C2_amended (("Kars").toList) (("g").toList) 2025 (".js") (("a()").toList)
    none none
    ⟨.added, none,
      some (("/*\nCopyright © 2025 Kars (g)\n\nNot to be shared, replicated, or used without prior consent.\nContact me for any enquiries\n*/\n\na()").toList)⟩
    (("/*\nCopyright © 2025 Kars (g)\n\nNot to be shared, replicated, or used without prior consent.\nContact me for any enquiries\n*/\n\na()").toList)
    none
    (by decide) (Or.inl rfl) rfl (by decide)
    ⟨(("/*\nCopyright © 2025 Kars (g)\n\nNot to be shared, replicated, or used without prior consent.\nContact me for any enquiries\n*/").toList), by decide⟩

/-- A no-match result of the detector corresponds to a no-match of the
pattern loop. -/
theorem check_none_iff (content : List Char) (language : String) (username : List Char) :
    check_existing_copyright content language username = none ↔
      firstHeadMatch content (headPatterns (styleFor language) username) = none := by
  unfold check_existing_copyright
  split
  · rename_i a j e hx
    constructor
    · intro h; cases h
    · intro h; rw [hx] at h; cases h
  · rename_i hx
    simp [hx]

set_option maxRecDepth 1000000 in
/-- C4: the existing-header detector tries the four recognition patterns in
the fixed source order — block `©`, block `(c)`, line `©`, line `(c)`, each
demanding the configured owner name after the year — and the first pattern
that matches wins: a successful detection splits the pattern list into a
failing prefix and the winning pattern, the returned year is the four-digit
capture at the group position of that match, the returned span is the full
matched text, and when no pattern matches the detector reports not-found
rather than an error.  The concrete part shows the priority: on content where
both the block-`©` and the line-`©` pattern match, the block pattern's year
and span are returned. -/
theorem credit_C4_detector_contract :
    (∀ (content : List Char) (language : String) (username : List Char),
       check_existing_copyright content language username = none ↔
         ∀ p ∈ headPatterns (styleFor language) username,
           grpSearch p.pre p.post content = none) ∧
    (∀ (content : List Char) (language : String) (username y sp : List Char),
       check_existing_copyright content language username = some (y, sp) →
         ∃ ps1 pw ps2 a j e,
           headPatterns (styleFor language) username = ps1 ++ pw :: ps2 ∧
           (∀ q ∈ ps1, grpSearch q.pre q.post content = none) ∧
           grpSearch pw.pre pw.post content = some (a, j, e) ∧
           y = (content.drop j).take 4 ∧
           sp = (content.drop a).take (e - a) ∧
           a ≤ j ∧ j + 4 ≤ e ∧ e ≤ content.length ∧
           y.length = 4 ∧ (∀ c ∈ y, c.isDigit)) ∧
    (check_existing_copyright ((("// Copyright © 1980 Kars\n/*\nCopyright © 1990 Kars x\n*/").toList))
        ("javascript") (("Kars").toList)
      = some ((("1990").toList), (("/*\nCopyright © 1990 Kars x\n*/").toList))) ∧
    ((grpSearch ((headPatterns (styleFor ("javascript")) (("Kars").toList)).getD 2 ⟨.bol, .bol⟩).pre
        ((headPatterns (styleFor ("javascript")) (("Kars").toList)).getD 2 ⟨.bol, .bol⟩).post
        ((("// Copyright © 1980 Kars\n/*\nCopyright © 1990 Kars x\n*/").toList))).isSome = true) := by
  refine ⟨?_, ?_, by decide, by decide⟩
  · intro content language username
    rw [check_none_iff]
    exact firstHeadMatch_eq_none content _
  · intro content language username y sp h
    obtain ⟨a, j, e, hfm, h1, h2, h3, h4, hy, hsp⟩ :=
      check_some_bounds content language username y sp h
    obtain ⟨ps1, pw, ps2, heq, hnone, hsome⟩ :=
      firstHeadMatch_split content _ (a, j, e) hfm
    obtain ⟨hylen, hydig⟩ := digits4At_spec content j h4
    refine ⟨ps1, pw, ps2, a, j, e, heq, hnone, hsome, hy, hsp, h1, h2, h3, ?_, ?_⟩
    · rw [hy]; exact hylen
    · intro c hc; rw [hy] at hc; exact hydig c hc

set_option maxRecDepth 1000000 in
/-- Witness for C4: the spec-structure of the detection result exhibited on
the priority example, with its win via the first (block-`©`) pattern. -/
theorem credit_C4_witness :
    ∃ ps1 pw ps2 a j e,
      headPatterns (styleFor ("javascript")) (("Kars").toList) = ps1 ++ pw :: ps2 ∧
      (∀ q ∈ ps1, grpSearch q.pre q.post
        ((("// Copyright © 1980 Kars\n/*\nCopyright © 1990 Kars x\n*/").toList)) = none) ∧
      grpSearch pw.pre pw.post
        ((("// Copyright © 1980 Kars\n/*\nCopyright © 1990 Kars x\n*/").toList)) = some (a, j, e) ∧
      (("1990").toList) = (((("// Copyright © 1980 Kars\n/*\nCopyright © 1990 Kars x\n*/").toList)).drop j).take 4 ∧
      (("/*\nCopyright © 1990 Kars x\n*/").toList) = (((("// Copyright © 1980 Kars\n/*\nCopyright © 1990 Kars x\n*/").toList)).drop a).take (e - a) ∧
      a ≤ j ∧ j + 4 ≤ e ∧ e ≤ ((("// Copyright © 1980 Kars\n/*\nCopyright © 1990 Kars x\n*/").toList)).length ∧
      ((("1990").toList)).length = 4 ∧ (∀ c ∈ (("1990").toList), c.isDigit) :=
  credit_C4_detector_contract.2.1
    ((("// Copyright © 1980 Kars\n/*\nCopyright © 1990 Kars x\n*/").toList))
    ("javascript") (("Kars").toList) (("1990").toList)
    (("/*\nCopyright © 1990 Kars x\n*/").toList) (by decide)

set_option maxRecDepth 1000000 in
/-- C7: in the JS/TS locator every import-like match lying fully inside a
detected line comment, block comment or quoted string is discarded; among the
kept matches the one with the greatest end offset is chosen and the returned
offset is that of the first non-whitespace character after it (or the raw end
at end-of-content).  On `// import fake from 'x'\nimport real from 'y';\nz()`
the commented-out import is matched but discarded, and the locator returns
46 — right after the real import. -/
theorem credit_C7_js_comment_discard :
    (∀ (content : List Char) (m : Nat × Nat),
       m ∈ findIter jsCombined content → jsInsideProtected content m = true →
       m ∉ (findIter jsCombined content).filter (fun x => ! jsInsideProtected content x)) ∧
    (∀ (content : List Char) (m : Nat × Nat),
       m ∈ (findIter jsCombined content).filter (fun x => ! jsInsideProtected content x) →
       m.2 ≤ lastEnd ((findIter jsCombined content).filter (fun x => ! jsInsideProtected content x))) ∧
    (∀ content : List Char,
       (findIter jsCombined content).isEmpty = false →
       ((findIter jsCombined content).filter (fun x => ! jsInsideProtected content x)).isEmpty = false →
       detect_import_blocks content ("javascript") =
         (match ((content.drop (lastEnd ((findIter jsCombined content).filter
             (fun x => ! jsInsideProtected content x)))).findIdx? (fun c => ! isPySpace c)) with
          | some t => lastEnd ((findIter jsCombined content).filter
              (fun x => ! jsInsideProtected content x)) + t
          | none => lastEnd ((findIter jsCombined content).filter
              (fun x => ! jsInsideProtected content x)))) ∧
    ((3, 23) ∈ findIter jsCombined ((("// import fake from 'x'\nimport real from 'y';\nz()").toList))) ∧
    (jsInsideProtected ((("// import fake from 'x'\nimport real from 'y';\nz()").toList)) (3, 23) = true) ∧
    (detect_import_blocks ((("// import fake from 'x'\nimport real from 'y';\nz()").toList)) ("javascript") = 46) := by
  refine ⟨?_, ?_, ?_, by decide, by decide, by decide⟩
  · intro content m hmem hin hc
    rw [List.mem_filter] at hc
    rw [hin] at hc
    simp at hc
  · intro content m h
    exact lastEnd_ge _ m h
  · intro content h1 h2
    unfold detect_import_blocks
    rw [if_pos (Or.inl rfl)]
    dsimp only
    rw [if_neg (by simp [h1]), if_neg (by simp [h2])]

set_option maxRecDepth 1000000 in
/-- Witness for C7: the commented-out import of the concrete example is not
among the kept import matches. -/
theorem credit_C7_witness :
    (3, 23) ∉ ((findIter jsCombined ((("// import fake from 'x'\nimport real from 'y';\nz()").toList))).filter
      (fun x => ! jsInsideProtected ((("// import fake from 'x'\nimport real from 'y';\nz()").toList)) x)) :=
  credit_C7_js_comment_discard.1
    ((("// import fake from 'x'\nimport real from 'y';\nz()").toList)) (3, 23)
    (by decide) (by decide)

end Credit
